import Mathlib

/-!
Verification of the crawl-control core (frontier + page admission pipeline)
of a focused web crawler.  The Lean definitions below are a shallow embedding
of `src/scraper.py` and `src/crawler/frontier.py`; Python dictionaries become
association lists, sets become lists with membership, and the external
capabilities (network fetcher, markup parser, robots parser state) are passed
as explicit parameters.
-/

namespace Crawler

/-! ## Generic dictionary (Python `dict` / `shelve`) as association lists -/

def dictGet {α : Type} (m : List (String × α)) (k : String) : Option α :=
  match m with
  | [] => none
  | (k₀, v₀) :: rest => if k₀ = k then some v₀ else dictGet rest k

def dictSet {α : Type} (m : List (String × α)) (k : String) (v : α) :
    List (String × α) :=
  match m with
  | [] => [(k, v)]
  | (k₀, v₀) :: rest =>
    if k₀ = k then (k, v) :: rest else (k₀, v₀) :: dictSet rest k v

/-! ## Character and string helpers (ASCII, mirroring Python `str` methods) -/

def lowerChar (c : Char) : Char :=
  if 65 ≤ c.toNat ∧ c.toNat ≤ 90 then Char.ofNat (c.toNat + 32) else c

def lowerStr (s : String) : String := String.mk (s.data.map lowerChar)

/-- `suf.isSuffixOf s`, i.e. Python `s.endswith(suf)`. -/
def endsWithStr (s suf : String) : Bool := suf.data.isSuffixOf s.data

/-- `sub` occurs as a contiguous sublist of `l`. -/
def isInfixList (sub : List Char) : List Char → Bool
  | [] => sub.isEmpty
  | c :: rest => sub.isPrefixOf (c :: rest) || isInfixList sub rest

/-- Python `sub in s` (substring containment). -/
def containsSub (s sub : String) : Bool := isInfixList sub.data s.data

/-- Split at the first occurrence of `sep`: `some (before, after)`,
or `none` when `sep` does not occur. -/
def splitFirst (sep : Char) : List Char → Option (List Char × List Char)
  | [] => none
  | c :: cs =>
    if c = sep then some ([], cs)
    else
      match splitFirst sep cs with
      | none => none
      | some (a, b) => some (c :: a, b)

/-! ## URL parsing (model of Python `urllib.parse`)

The crawler source calls `urlparse`, `urldefrag` and `urljoin` from the
standard library; these definitions model the behaviour of CPython's
`urllib.parse` on the inputs the crawler feeds it: scheme detection and
lowercasing, `//netloc` extraction stopped at a `/?#` delimiter, fragment
and query splitting, and the `ValueError` raised for a netloc with an
unmatched IPv6 bracket (modelled by `urlparse?` returning `none`). -/

structure UrlParts where
  scheme : String
  netloc : String
  path : String
  query : String
  fragment : String
deriving Repr, DecidableEq

def schemeChar (c : Char) : Bool :=
  c.isAlpha || c.isDigit || c == '+' || c == '-' || c == '.'

/-- CPython: a leading `scheme:` is recognised when the text before the first
colon is non-empty, starts with a letter and uses only scheme characters;
the scheme is lowercased. -/
def findScheme (l : List Char) : String × List Char :=
  match splitFirst ':' l with
  | none => ("", l)
  | some (before, after) =>
    match before with
    | [] => ("", l)
    | c :: cs =>
      if c.isAlpha && (c :: cs).all schemeChar then
        (String.mk ((c :: cs).map lowerChar), after)
      else ("", l)

/-- The netloc extends to the first `/`, `?` or `#`. -/
def netlocSpan : List Char → List Char × List Char
  | [] => ([], [])
  | c :: cs =>
    if c = '/' ∨ c = '?' ∨ c = '#' then ([], c :: cs)
    else
      let (a, b) := netlocSpan cs
      (c :: a, b)

def urlparseChars (l : List Char) : UrlParts :=
  let (scheme, rest) := findScheme l
  let (netloc, rest1) :=
    if rest.take 2 = ['/', '/'] then netlocSpan (rest.drop 2) else ([], rest)
  let (rest2, fragment) :=
    match splitFirst '#' rest1 with
    | none => (rest1, [])
    | some (a, b) => (a, b)
  let (path, query) :=
    match splitFirst '?' rest2 with
    | none => (rest2, [])
    | some (a, b) => (a, b)
  ⟨scheme, String.mk netloc, String.mk path, String.mk query, String.mk fragment⟩

def urlparse (s : String) : UrlParts := urlparseChars s.data

/-- `urlparse` with CPython's "Invalid IPv6 URL" `ValueError` made explicit:
`none` when the netloc contains `[` without `]` or vice versa. -/
def urlparse? (s : String) : Option UrlParts :=
  let p := urlparse s
  let nl := p.netloc.data
  if (nl.contains '[' && !nl.contains ']') ||
     (nl.contains ']' && !nl.contains '[') then none
  else some p

/-- `urldefrag url` (the URL part only): everything before the first `#`. -/
def urldefrag (s : String) : String :=
  match splitFirst '#' s.data with
  | none => s
  | some (a, _) => String.mk a

/-! ## Robots state (`robot_parsers` / `crawl_delays` globals)

A cached `RobotFileParser` for one host is modelled by what the crawler
reads from it: the `can_fetch(USER_AGENT, url)` verdict, the declared
crawl delay, and the sitemap list. -/

structure RobotsInfo where
  canFetch : String → Bool
  crawlDelay : Option ℚ
  siteMaps : List String

abbrev RobotMap := List (String × RobotsInfo)

/-! ## `scraper.is_valid` -/

/-- The banned-extension alternatives of the regex
`\.(css|js|bmp|gif|jpe?g|ico|png|tiff?|mp2|mp3|mp4|avi|mov|pdf|docx?|xlsx?|pptx?|zip|rar|gz|exe|tar)$`. -/
def bannedExts : List String :=
  ["css", "js", "bmp", "gif", "jpg", "jpeg", "ico", "png", "tif", "tiff",
   "mp2", "mp3", "mp4", "avi", "mov", "pdf", "doc", "docx", "xls", "xlsx",
   "ppt", "pptx", "zip", "rar", "gz", "exe", "tar"]

/-- `re.search(r"\.(...)$", path)`: the path ends in a banned extension. -/
def hasBannedExt (path : String) : Bool :=
  bannedExts.any (fun e => endsWithStr path ("." ++ e))

/-- The allow-list test of `is_valid`: domain suffixes, or the
`today.uci.edu` substring together with the department path substring. -/
def inScopeDomain (domain path : String) : Bool :=
  endsWithStr domain ".ics.uci.edu" ||
  endsWithStr domain ".cs.uci.edu" ||
  endsWithStr domain ".informatics.uci.edu" ||
  endsWithStr domain ".stat.uci.edu" ||
  (containsSub domain "today.uci.edu" &&
    containsSub path "/department/information_computer_sciences")

/-- The body of `is_valid` inside its `try:` block; `none` models an
exception escaping from the body (here: `urlparse` raising `ValueError`). -/
def is_validCore (robots : RobotMap) (url : String) : Option Bool :=
  let u := urldefrag url
  match urlparse? u with
  | none => none
  | some parsed =>
    if ¬(parsed.scheme = "http" ∨ parsed.scheme = "https") then some false
    else
      let domain := lowerStr parsed.netloc
      let path := lowerStr parsed.path
      if inScopeDomain domain path = false then some false
      else if hasBannedExt path = true then some false
      else
        match dictGet robots parsed.netloc with
        | some rp => if rp.canFetch u = false then some false else some true
        | none => some true

/-- `scraper.is_valid`: the `try:` body, with any exception turned
into `False` by the bare `except:` clause. -/
def is_valid (robots : RobotMap) (url : String) : Bool :=
  (is_validCore robots url).getD false

/-! ## URL normalisation and fingerprints (`utils.normalize` / `utils.get_urlhash`) -/

/-- Drop all trailing `/` characters. -/
def rstripSlash (l : List Char) : List Char :=
  (l.reverse.dropWhile (fun c => c == '/')).reverse

/-- Modelled from the spec: `utils.normalize` is not under `src/`.  The spec's
URL Record identity is "a normalized URL string (... fragment removed)" with
trailing-slash-equivalent forms identified, so normalisation strips the
fragment and any trailing slashes. -/
def normalize (url : String) : String :=
  String.mk (rstripSlash (urldefrag url).data)

/-- Modelled from the spec: `utils.get_urlhash` is not under `src/`.  The spec
calls the fingerprint "a stable hash of the normalized string" and requires
that a fingerprint map to at most one URL Record; it is modelled as the
injective identity fingerprint on the (normalised) string. -/
def get_urlhash (url : String) : String := url

/-! ## The URL Frontier (`crawler/frontier.py`)

`url_map` and the shelve-backed `save` store fingerprint ↦ `(url, visited)`;
`to_be_downloaded` is the FIFO queue.  The statistics fields updated by
`mark_url_complete` are carried along. -/

structure FrontierSt where
  url_map : List (String × String × Bool)
  save : List (String × String × Bool)
  queue : List String
  crawled_urls : Nat
  unique_pages : List String
  uci_subdomains : List String
  domain_count : List (String × Nat)
deriving Repr, DecidableEq

def frontierInit : FrontierSt := ⟨[], [], [], 0, [], [], []⟩

/-- `Frontier.add_url`: normalise, fingerprint, and only when the fingerprint
is absent record `(url, False)` in the map and the save file and enqueue. -/
def add_url (st : FrontierSt) (url : String) : FrontierSt :=
  let u := normalize url
  let urlhash := get_urlhash u
  if (dictGet st.url_map urlhash).isSome then st
  else
    { st with
      url_map := dictSet st.url_map urlhash (u, false)
      save := dictSet st.save urlhash (u, false)
      queue := st.queue ++ [u] }

/-- Python `urlparse(url).hostname`: the netloc after any userinfo, before any
port, lowercased (`None`, i.e. the empty string here, when absent). -/
def hostname (url : String) : String :=
  let nl := (urlparse url).netloc.data
  let afterAt := ((nl.reverse.takeWhile (fun c => c != '@')).reverse)
  String.mk ((afterAt.takeWhile (fun c => c != ':')).map lowerChar)

/-- `Frontier.mark_url_complete`: set `visited=True` in map and save, record
the page and its `.uci.edu` hostname in the statistics. -/
def mark_url_complete (st : FrontierSt) (url : String) : FrontierSt :=
  let urlhash := get_urlhash url
  let host := hostname url
  let st := { st with
    crawled_urls := st.crawled_urls + 1
    url_map := dictSet st.url_map urlhash (url, true)
    save := dictSet st.save urlhash (url, true)
    unique_pages :=
      if url ∈ st.unique_pages then st.unique_pages else st.unique_pages ++ [url] }
  if host ≠ "" ∧ endsWithStr host ".uci.edu" = true then
    { st with
      uci_subdomains :=
        if host ∈ st.uci_subdomains then st.uci_subdomains
        else st.uci_subdomains ++ [host]
      domain_count :=
        dictSet st.domain_count host ((dictGet st.domain_count host).getD 0 + 1) }
  else st

/-- `Frontier.mark_url_invalid`: set `visited=True` in map and save only. -/
def mark_url_invalid (st : FrontierSt) (url : String) : FrontierSt :=
  let urlhash := get_urlhash url
  { st with
    url_map := dictSet st.url_map urlhash (url, true)
    save := dictSet st.save urlhash (url, true) }

/-- `Frontier._parse_save_file`: replay every save-file record into `url_map`,
and enqueue the records that are unvisited and pass `is_valid`. -/
def parse_save_file (robots : RobotMap) (st : FrontierSt) : FrontierSt :=
  { st with
    url_map := st.save.foldl (fun m e => dictSet m e.1 e.2) st.url_map
    queue := st.queue ++
      ((st.save.filter (fun e => !e.2.2 && is_valid robots e.2.1)).map
        (fun e => e.2.1)) }

/-- The Frontier operations a caller can perform after construction. -/
inductive FOp where
  | add (url : String)
  | complete (url : String)
  | invalid (url : String)
  | replay

def applyOp (robots : RobotMap) (st : FrontierSt) : FOp → FrontierSt
  | .add url => add_url st url
  | .complete url => mark_url_complete st url
  | .invalid url => mark_url_invalid st url
  | .replay => parse_save_file robots st

def applyOps (robots : RobotMap) (st : FrontierSt) (ops : List FOp) : FrontierSt :=
  ops.foldl (applyOp robots) st

/-- `Frontier.__init__`: `disk` is the shelve file contents (`none` = file
absent).  A restart deletes any existing save file and seeds; a resume
replays the save file and falls back to seeding only when it is empty. -/
def initFrontier (robots : RobotMap) (seed_urls : List String) (restart : Bool)
    (disk : Option (List (String × String × Bool))) : FrontierSt :=
  let save0 := if restart then [] else disk.getD []
  let st0 : FrontierSt := { frontierInit with save := save0 }
  if restart then seed_urls.foldl add_url st0
  else
    let st1 := parse_save_file robots st0
    if st1.save.isEmpty then seed_urls.foldl add_url st1 else st1

/-! ## The Politeness Gate (`scraper.obey_crawl_delay`)

`world host` is what fetching and parsing `http(s)://host/robots.txt` would
yield: `none` models `parser.read()` raising (the `except` branch), `some
info` a successful parse.  `slept` records the `time.sleep` performed (its
duration in seconds), `fetchedRobots` whether a robots.txt retrieval was
attempted for this call. -/

def is_root_url (url : String) : Bool :=
  (urlparse url).path = "" || (urlparse url).path = "/"

structure PoliteSt where
  robot_parsers : RobotMap
  crawl_delays : List (String × ℚ)

def politeInit : PoliteSt := ⟨[], []⟩

structure ObeyResult where
  state : PoliteSt
  slept : Option ℚ
  fetchedRobots : Bool

def obey_crawl_delay (world : String → Option RobotsInfo) (st : PoliteSt)
    (url : String) : ObeyResult :=
  let netloc := (urlparse url).netloc
  match dictGet st.crawl_delays netloc with
  | some d => ⟨st, some d, false⟩
  | none =>
    if is_root_url url = true ∧ (dictGet st.robot_parsers netloc).isNone then
      match world netloc with
      | some info =>
        let rp := dictSet st.robot_parsers netloc info
        match info.crawlDelay with
        | some d =>
          if d ≠ 0 then ⟨⟨rp, dictSet st.crawl_delays netloc d⟩, some d, true⟩
          else ⟨⟨rp, dictSet st.crawl_delays netloc 1⟩, some 1, true⟩
        | none => ⟨⟨rp, dictSet st.crawl_delays netloc 1⟩, some 1, true⟩
      | none =>
        ⟨⟨st.robot_parsers, dictSet st.crawl_delays netloc 1⟩, some 1, true⟩
    else ⟨st, none, false⟩

/-- The delay `obey_crawl_delay` records and sleeps when it loads robots.txt
for `netloc`: the declared delay when truthy, else the 1.0-second default. -/
def delayFor (world : String → Option RobotsInfo) (netloc : String) : ℚ :=
  match world netloc with
  | some info =>
    match info.crawlDelay with
    | some d => if d ≠ 0 then d else 1
    | none => 1
  | none => 1

/-- Run a sequence of `obey_crawl_delay` calls, collecting one event (the
host) per robots.txt retrieval attempted. -/
def runObeys (world : String → Option RobotsInfo) (st : PoliteSt) :
    List String → PoliteSt × List String
  | [] => (st, [])
  | url :: rest =>
    let r := obey_crawl_delay world st url
    ((runObeys world r.state rest).1,
      (if r.fetchedRobots then [(urlparse url).netloc] else []) ++
        (runObeys world r.state rest).2)

/-! ## Duplicate detection: content hashes and term-frequency counters -/

/-- Modelled from the spec: the exact-duplicate check "computes a
cryptographic content hash" (`hashlib.sha256`, a library primitive);
modelled as the injective identity fingerprint on the content bytes. -/
def sha256 (content : List Nat) : List Nat := content

/-- Python `Counter(words)`: word ↦ multiplicity, keyed in first-occurrence
order. -/
def mkCounter (ws : List String) : List (String × Nat) :=
  ws.foldl (fun c w => dictSet c w ((dictGet c w).getD 0 + 1)) []

def keys (c : List (String × Nat)) : List String := c.map Prod.fst

/-- `c[x]` on a `Counter`: 0 for a missing key. -/
def cnt (c : List (String × Nat)) (x : String) : Nat := (dictGet c x).getD 0

/-- `sum(v ** 2 for v in c.values())`, the squared magnitude. -/
def normSq (c : List (String × Nat)) : Nat := (c.map (fun p => p.2 * p.2)).sum

/-- `set(c1) & set(c2)`: the common keys (in `c1` order). -/
def interKeys (c1 c2 : List (String × Nat)) : List String :=
  (keys c1).filter (fun k => decide (k ∈ keys c2))

/-- `sum(c1[x] * c2[x] for x in intersection)`. -/
def dotCnt (c1 c2 : List (String × Nat)) : Nat :=
  ((interKeys c1 c2).map (fun k => cnt c1 k * cnt c2 k)).sum

/-- `scraper.cosine_sim`: `dot / (norm1 * norm2)`, and `0.0` when either
magnitude is zero.  The Python floats are modelled as exact reals. -/
noncomputable def cosine_sim (c1 c2 : List (String × Nat)) : ℝ :=
  let norm1 := Real.sqrt (normSq c1)
  let norm2 := Real.sqrt (normSq c2)
  if norm1 = 0 ∨ norm2 = 0 then 0
  else (dotCnt c1 c2 : ℝ) / (norm1 * norm2)

/-- Decidable form of `cosine_sim c1 c2 ≥ 0.9`: both magnitudes non-zero and
`(10·dot)² ≥ 81·‖c1‖²·‖c2‖²`.  `nearDupB_iff` below proves it equivalent to
the real-valued comparison the source performs. -/
def nearDupB (c1 c2 : List (String × Nat)) : Bool :=
  decide (normSq c1 ≠ 0 ∧ normSq c2 ≠ 0 ∧
    81 * (normSq c1 * normSq c2) ≤ 100 * (dotCnt c1 c2 * dotCnt c1 c2))

/-- `scraper.is_near_duplicate` (threshold 0.9) against the corpus
`visited_texts`. -/
def is_near_duplicate (texts : List (List (String × Nat)))
    (c : List (String × Nat)) : Bool :=
  texts.any (fun prev => nearDupB prev c)

/-! ## Crawl statistics -/

def STOP_WORDS : List String :=
  ["a", "about", "above", "after", "again", "against", "all", "am", "an", "and",
   "any", "are", "aren't", "as", "at", "be", "because", "been", "before", "being",
   "below", "between", "both", "but", "by", "can't", "cannot", "could", "couldn't",
   "did", "didn't", "do", "does", "doesn't", "doing", "don't", "down", "during",
   "each", "few", "for", "from", "further", "had", "hadn't", "has", "hasn't",
   "have", "haven't", "having", "he", "he'd", "he'll", "he's", "her", "here",
   "here's", "hers", "herself", "him", "himself", "his", "how", "how's", "i",
   "i'd", "i'll", "i'm", "i've", "if", "in", "into", "is", "isn't", "it", "it's",
   "its", "itself", "let's", "me", "more", "most", "mustn't", "my", "myself", "no",
   "nor", "not", "of", "off", "on", "once", "only", "or", "other", "ought", "our",
   "ours", "ourselves", "out", "over", "own", "same", "shan't", "she", "she'd",
   "she'll", "she's", "should", "shouldn't", "so", "some", "such", "than", "that",
   "that's", "the", "their", "theirs", "them", "themselves", "then", "there",
   "there's", "these", "they", "they'd", "they'll", "they're", "they've", "this",
   "those", "through", "to", "too", "under", "until", "up", "very", "was",
   "wasn't", "we", "we'd", "we'll", "we're", "we've", "were", "weren't", "what",
   "what's", "when", "when's", "where", "where's", "which", "while", "who",
   "who's", "whom", "why", "why's", "with", "won't", "would", "wouldn't", "you",
   "you'd", "you'll", "you're", "you've", "your", "yours", "yourself", "yourselves"]

def isAsciiAlpha (c : Char) : Bool :=
  ('a' ≤ c && c ≤ 'z') || ('A' ≤ c && c ≤ 'Z')

/-- `re.match("^[a-zA-Z]+$", word)` succeeds. -/
def isAlphaStr (w : String) : Bool := !w.data.isEmpty && w.data.all isAsciiAlpha

/-- `scraper.update_word_stats`: fold non-stop-word alphabetic tokens into the
global frequency map. -/
def update_word_stats (all_words : List (String × Nat)) (words : List String) :
    List (String × Nat) :=
  words.foldl
    (fun aw word =>
      if word ∉ STOP_WORDS ∧ isAlphaStr word = true then
        dictSet aw word ((dictGet aw word).getD 0 + 1)
      else aw)
    all_words

/-- Python whitespace, as used by `str.split()` / `str.strip()`. -/
def isWs (c : Char) : Bool := c == ' ' || c == '\t' || c == '\n' || c == '\r'

def splitWsAux : List Char → List Char → List String
  | [], acc => if acc.isEmpty then [] else [String.mk acc.reverse]
  | c :: cs, acc =>
    if isWs c then
      if acc.isEmpty then splitWsAux cs [] else String.mk acc.reverse :: splitWsAux cs []
    else splitWsAux cs (c :: acc)

/-- Python `s.split()`: split on whitespace runs, dropping empty pieces. -/
def pySplit (s : String) : List String := splitWsAux s.data []

/-- Python `s.strip()`. -/
def stripStr (s : String) : String :=
  String.mk (((s.data.dropWhile isWs).reverse.dropWhile isWs).reverse)

def splitOnCharAux (sep : Char) : List Char → List Char → List String
  | [], acc => [String.mk acc.reverse]
  | c :: cs, acc =>
    if c = sep then String.mk acc.reverse :: splitOnCharAux sep cs []
    else splitOnCharAux sep cs (c :: acc)

/-- Python `s.split(sep)` for a single-character separator. -/
def splitOnChar (sep : Char) (s : String) : List String :=
  splitOnCharAux sep s.data []

/-- `scraper.track_ics_subdomains`: count the netloc when
`domain.split(".")[1] == "ics"`. -/
def track_ics_subdomains (subs : List (String × Nat)) (url : String) :
    List (String × Nat) :=
  let domain := (urlparse url).netloc
  if (splitOnChar '.' domain)[1]? = some "ics" then
    dictSet subs domain ((dictGet subs domain).getD 0 + 1)
  else subs

/-- `scraper.update_largest_page` on the `(url, count)` record. -/
def update_largest (cur : String × Nat) (url : String) (word_count : Nat) :
    String × Nat :=
  if cur.2 < word_count then (url, word_count) else cur

/-! ## `urljoin` (model of CPython `urllib.parse.urljoin`) -/

def usesRelative : List String :=
  ["", "ftp", "http", "gopher", "nntp", "imap", "wais", "file", "https",
   "shttp", "mms", "prospero", "rtsp", "rtspu", "sftp", "svn", "svn+ssh",
   "ws", "wss"]

def usesNetloc : List String :=
  ["", "ftp", "http", "gopher", "nntp", "telnet", "imap", "wais", "file",
   "mms", "https", "shttp", "snews", "prospero", "rtsp", "rtspu", "rsync",
   "svn", "svn+ssh", "sftp", "nfs", "git", "git+ssh", "ws", "wss"]

def startsWithStr (s pre : String) : Bool := pre.data.isPrefixOf s.data

/-- CPython `urlunsplit`. -/
def urlunsplit (scheme netloc path query fragment : String) : String :=
  let url := path
  let url :=
    if netloc ≠ "" ∨ url.data.take 2 = ['/', '/'] then
      "//" ++ netloc ++
        (if url ≠ "" ∧ url.data.take 1 ≠ ['/'] then "/" ++ url else url)
    else url
  let url := if scheme ≠ "" then scheme ++ ":" ++ url else url
  let url := if query ≠ "" then url ++ "?" ++ query else url
  if fragment ≠ "" then url ++ "#" ++ fragment else url

/-- `bpath.split('/')` with a trailing non-empty segment deleted. -/
def baseParts (bpath : String) : List String :=
  let parts := splitOnChar '/' bpath
  match parts.getLast? with
  | some s => if s ≠ "" then parts.dropLast else parts
  | none => parts

/-- `segments[1:-1] = filter(None, segments[1:-1])`. -/
def filterInterior : List String → List String
  | [] => []
  | [a] => [a]
  | a :: rest =>
    match rest.getLast? with
    | none => [a]
    | some last => a :: ((rest.dropLast.filter (fun s => s ≠ "")) ++ [last])

/-- The `'..'` / `'.'` resolution loop of `urljoin`. -/
def resolvePop (acc : List String) (seg : String) : List String :=
  if seg = ".." then acc.dropLast
  else if seg = "." then acc
  else acc ++ [seg]

def joinSegments (segments : List String) : String :=
  let resolved := segments.foldl resolvePop []
  let resolved :=
    if segments.getLast? = some "." ∨ segments.getLast? = some ".." then
      resolved ++ [""]
    else resolved
  let joined := String.intercalate "/" resolved
  if joined = "" then "/" else joined

/-- CPython `urljoin(base, url)`; `none` models a `ValueError` from parsing
(the caller's `except ValueError` branch). -/
def urljoin? (base url : String) : Option String :=
  if base = "" then some url
  else if url = "" then some base
  else
    match urlparse? base with
    | none => none
    | some pb =>
      match urlparse? url with
      | none => none
      | some pu0 =>
        let pu := if pu0.scheme = "" then { pu0 with scheme := pb.scheme } else pu0
        if pu.scheme ≠ pb.scheme ∨ pu.scheme ∉ usesRelative then some url
        else
          let netloc :=
            if pu.scheme ∈ usesNetloc then
              if pu.netloc ≠ "" then pu.netloc else pb.netloc
            else pu.netloc
          if pu.scheme ∈ usesNetloc ∧ pu.netloc ≠ "" then
            some (urlunsplit pu.scheme pu.netloc pu.path pu.query pu.fragment)
          else if pu.path = "" then
            let q := if pu.query ≠ "" then pu.query else pb.query
            some (urlunsplit pu.scheme netloc pb.path q pu.fragment)
          else
            let segments :=
              if pu.path.data.take 1 = ['/'] then splitOnChar '/' pu.path
              else filterInterior (baseParts pb.path ++ splitOnChar '/' pu.path)
            some (urlunsplit pu.scheme netloc (joinSegments segments) pu.query
              pu.fragment)

/-! ## Link extraction and the scraper pipeline -/

/-- What the crawler reads from the external Markup Parser: the document
body's stripped visible strings (when a `<body>` exists) and the `href`
values of the `<a href=...>` anchors, in document order. -/
structure BodyDoc where
  strippedStrings : List String

structure Doc where
  body : Option BodyDoc
  anchors : List String

/-- `scraper.extract_links`: join each href to the base URL, strip the
fragment, keep results that start with `'http'`; a href whose join raises
`ValueError` is skipped and extraction continues. -/
def extract_links (doc : Doc) (base_url : String) : List String :=
  doc.anchors.foldl
    (fun links raw_href =>
      match urljoin? base_url raw_href with
      | none => links
      | some j =>
        let j := urldefrag j
        if startsWithStr j "http" = true then links ++ [j] else links)
    []

/-- `scraper.extract_next_links`: sitemap traversal for a root page.
`fetchLocs sm` is the list of `<loc>` texts obtained by downloading and
parsing sitemap `sm` (`none`: download failure or parse exception, which the
source skips with `continue`). -/
def extract_next_links (fetchLocs : String → Option (List String))
    (robots : RobotMap) (url : String) : List String :=
  let parsed := urlparse url
  match dictGet robots parsed.netloc with
  | none => []
  | some info =>
    info.siteMaps.foldl
      (fun links sm =>
        match fetchLocs sm with
        | none => links
        | some locs => links ++ ((locs.filter (fun l => l ≠ "")).map stripStr))
      []

/-- The scraper's view of `resp`: HTTP status, the parsed `Content-Length`
header when present, and the raw body bytes. -/
structure Resp where
  status : Nat
  contentLength : Option Nat
  content : List Nat

/-- The global mutable state of `scraper.py`. -/
structure ScrapeState where
  visited_hashes : List (List Nat)
  visited_texts : List (List (String × Nat))
  all_words : List (String × Nat)
  ICS_subdomains : List (String × Nat)
  largest : String × Nat
  robot_parsers : RobotMap
  crawl_delays : List (String × ℚ)

/-- Which early-return (or acceptance) the `scraper` call took. -/
inductive Outcome where
  | redirect | rejected | tooLarge | exactDup | noBody | thin | nearDup | admitted
deriving Repr, DecidableEq

/-- `Content-Length` header present and above the 2 MiB cap. -/
def sizeTooBig (resp : Resp) : Bool :=
  match resp.contentLength with
  | some n => decide (2 * 1024 * 1024 < n)
  | none => false

/-- `[string.lower() for strings in soup.body.stripped_strings
for string in strings.split()]`. -/
def tokenizeBody (b : BodyDoc) : List String :=
  (b.strippedStrings.map (fun s => (pySplit s).map lowerStr)).flatten

/-- The part of `scraper.scraper` after the redirect/validity/size guards:
politeness, exact-duplicate check, parsing, thin-page check, near-duplicate
check, statistics and link extraction. -/
def scraperMain (parse : List Nat → Doc) (fetchLocs : String → Option (List String))
    (world : String → Option RobotsInfo) (url : String) (resp : Resp)
    (st : ScrapeState) : Outcome × List String × ScrapeState :=
  let ob := obey_crawl_delay world ⟨st.robot_parsers, st.crawl_delays⟩ url
  let st1 := { st with
    robot_parsers := ob.state.robot_parsers
    crawl_delays := ob.state.crawl_delays }
  let checksum := sha256 resp.content
  if checksum ∈ st1.visited_hashes then (.exactDup, [], st1)
  else
    let st2 := { st1 with visited_hashes := st1.visited_hashes ++ [checksum] }
    match (parse resp.content).body with
    | none => (.noBody, [], st2)
    | some body =>
      let strings := tokenizeBody body
      if strings.length < 200 then (.thin, [], st2)
      else
        let counter := mkCounter strings
        if is_near_duplicate st2.visited_texts counter then (.nearDup, [], st2)
        else
          let st3 := { st2 with
            visited_texts := st2.visited_texts ++ [counter]
            all_words := update_word_stats st2.all_words strings
            ICS_subdomains := track_ics_subdomains st2.ICS_subdomains url
            largest := update_largest st2.largest url strings.length }
          let links := extract_links (parse resp.content) url ++
            (if is_root_url url = true then
              extract_next_links fetchLocs st3.robot_parsers url
            else [])
          (.admitted, links.filter (fun l => is_valid st3.robot_parsers l), st3)

/-- `scraper.scraper`: defragment, then the redirect / validity-and-status /
size guards, then `scraperMain`. -/
def scraper (parse : List Nat → Doc) (fetchLocs : String → Option (List String))
    (world : String → Option RobotsInfo) (url0 : String) (resp : Resp)
    (st : ScrapeState) : Outcome × List String × ScrapeState :=
  let url := urldefrag url0
  if 300 ≤ resp.status ∧ resp.status < 400 then (.redirect, [], st)
  else if is_valid st.robot_parsers url = false ∨ resp.status ≠ 200 then
    (.rejected, [], st)
  else if sizeTooBig resp = true then (.tooLarge, [], st)
  else scraperMain parse fetchLocs world url resp st

/-! ## Dictionary lemmas -/

lemma dictGet_dictSet_self {α : Type} (m : List (String × α)) (k : String) (v : α) :
    dictGet (dictSet m k v) k = some v := by
  induction m with
  | nil => simp [dictSet, dictGet]
  | cons p rest ih =>
    obtain ⟨k₀, v₀⟩ := p
    by_cases h : k₀ = k
    · simp [dictSet, dictGet, h]
    · simp [dictSet, dictGet, h, ih]

lemma dictGet_dictSet_ne {α : Type} (m : List (String × α)) {k k' : String} (v : α)
    (h : k ≠ k') : dictGet (dictSet m k v) k' = dictGet m k' := by
  induction m with
  | nil => simp [dictSet, dictGet, h]
  | cons p rest ih =>
    obtain ⟨k₀, v₀⟩ := p
    by_cases hk : k₀ = k
    · subst hk; simp [dictSet, dictGet, h]
    · simp [dictSet, dictGet, hk, ih]

lemma dictSet_of_get {α : Type} {m : List (String × α)} {k : String} {v : α}
    (h : dictGet m k = some v) : dictSet m k v = m := by
  induction m with
  | nil => simp [dictGet] at h
  | cons p rest ih =>
    obtain ⟨k₀, v₀⟩ := p
    by_cases hk : k₀ = k
    · subst hk
      simp [dictGet] at h
      simp [dictSet, h]
    · simp only [dictGet, if_neg hk] at h
      simp [dictSet, hk, ih h]

lemma dictGet_eq_none {α : Type} {m : List (String × α)} {k : String} :
    dictGet m k = none ↔ k ∉ m.map Prod.fst := by
  induction m with
  | nil => simp [dictGet]
  | cons p rest ih =>
    obtain ⟨k₀, v₀⟩ := p
    by_cases hk : k₀ = k
    · subst hk; simp [dictGet]
    · simp [dictGet, hk, ih, Ne.symm hk]

lemma keys_dictSet_some {α : Type} {m : List (String × α)} {k : String} (v : α)
    (h : (dictGet m k).isSome) : (dictSet m k v).map Prod.fst = m.map Prod.fst := by
  induction m with
  | nil => simp [dictGet] at h
  | cons p rest ih =>
    obtain ⟨k₀, v₀⟩ := p
    by_cases hk : k₀ = k
    · subst hk; simp [dictSet]
    · simp only [dictGet, if_neg hk] at h
      simp [dictSet, hk, ih h]

lemma keys_dictSet_none {α : Type} {m : List (String × α)} {k : String} (v : α)
    (h : dictGet m k = none) :
    (dictSet m k v).map Prod.fst = m.map Prod.fst ++ [k] := by
  induction m with
  | nil => simp [dictSet]
  | cons p rest ih =>
    obtain ⟨k₀, v₀⟩ := p
    by_cases hk : k₀ = k
    · subst hk; simp [dictGet] at h
    · simp only [dictGet, if_neg hk] at h
      simp [dictSet, hk, ih h]

lemma nodup_dictSet {α : Type} {m : List (String × α)} (k : String) (v : α)
    (nd : (m.map Prod.fst).Nodup) : ((dictSet m k v).map Prod.fst).Nodup := by
  cases h : dictGet m k with
  | some w =>
    rw [keys_dictSet_some v (by simp [h])]
    exact nd
  | none =>
    rw [keys_dictSet_none v h]
    simp [List.nodup_append, nd, dictGet_eq_none.mp h]

lemma dictGet_of_mem_nodup {α : Type} {m : List (String × α)} {k : String} {v : α}
    (nd : (m.map Prod.fst).Nodup) (hm : (k, v) ∈ m) : dictGet m k = some v := by
  induction m with
  | nil => simp at hm
  | cons p rest ih =>
    obtain ⟨k₀, v₀⟩ := p
    simp only [List.map_cons, List.nodup_cons] at nd
    rcases List.mem_cons.mp hm with he | hr
    · have hk : k = k₀ := congrArg Prod.fst he
      have hv : v = v₀ := congrArg Prod.snd he
      subst hk
      subst hv
      simp [dictGet]
    · have hk : k₀ ≠ k := by
        intro e
        refine nd.1 ?_
        rw [e]
        exact List.mem_map_of_mem Prod.fst hr
      simp [dictGet, hk, ih nd.2 hr]

lemma foldl_dictSet_self {α : Type} (l : List (String × α)) (m : List (String × α))
    (h : ∀ p ∈ l, dictGet m p.1 = some p.2) :
    l.foldl (fun acc e => dictSet acc e.1 e.2) m = m := by
  induction l with
  | nil => rfl
  | cons p rest ih =>
    have h1 : dictSet m p.1 p.2 = m := dictSet_of_get (h p (List.mem_cons_self p rest))
    simp only [List.foldl_cons, h1]
    exact ih (fun q hq => h q (List.mem_cons_of_mem p hq))

/-! ## Frontier invariants -/

/-- The running consistency invariant of a live `Frontier`: the in-memory
mapping mirrors the save file and fingerprints are unduplicated keys. -/
def FInv (st : FrontierSt) : Prop :=
  st.url_map = st.save ∧ (st.url_map.map Prod.fst).Nodup

/-- Fingerprint `h` is recorded as visited. -/
def visitedAt (st : FrontierSt) (h : String) : Prop :=
  ∃ u, dictGet st.url_map h = some (u, true)

lemma FInv_init : FInv frontierInit := ⟨rfl, List.nodup_nil⟩

lemma mark_complete_url_map (st : FrontierSt) (u : String) :
    (mark_url_complete st u).url_map = dictSet st.url_map (get_urlhash u) (u, true) := by
  unfold mark_url_complete
  dsimp only
  split <;> rfl

lemma mark_complete_save (st : FrontierSt) (u : String) :
    (mark_url_complete st u).save = dictSet st.save (get_urlhash u) (u, true) := by
  unfold mark_url_complete
  dsimp only
  split <;> rfl

lemma parse_save_file_url_map (robots : RobotMap) {st : FrontierSt} (inv : FInv st) :
    (parse_save_file robots st).url_map = st.url_map := by
  show st.save.foldl (fun m e => dictSet m e.1 e.2) st.url_map = st.url_map
  exact foldl_dictSet_self _ _ fun p hp =>
    dictGet_of_mem_nodup inv.2 (inv.1 ▸ hp)

lemma FInv_applyOp (robots : RobotMap) {st : FrontierSt} (inv : FInv st) (op : FOp) :
    FInv (applyOp robots st op) := by
  obtain ⟨hsync, hnd⟩ := inv
  cases op with
  | add u =>
    show FInv (add_url st u)
    unfold add_url
    dsimp only
    split
    · exact ⟨hsync, hnd⟩
    · exact ⟨by rw [hsync], nodup_dictSet _ _ hnd⟩
  | complete u =>
    show FInv (mark_url_complete st u)
    refine ⟨?_, ?_⟩
    · rw [mark_complete_url_map, mark_complete_save, hsync]
    · rw [mark_complete_url_map]
      exact nodup_dictSet _ _ hnd
  | invalid u =>
    show FInv (mark_url_invalid st u)
    exact ⟨by show dictSet _ _ _ = dictSet _ _ _; rw [hsync],
      nodup_dictSet _ _ hnd⟩
  | replay =>
    show FInv (parse_save_file robots st)
    refine ⟨?_, ?_⟩
    · rw [parse_save_file_url_map robots ⟨hsync, hnd⟩]
      exact hsync
    · rw [parse_save_file_url_map robots ⟨hsync, hnd⟩]
      exact hnd

lemma visited_applyOp (robots : RobotMap) {st : FrontierSt} {h : String}
    (inv : FInv st) (hv : visitedAt st h) (op : FOp) :
    visitedAt (applyOp robots st op) h := by
  obtain ⟨w, hw⟩ := hv
  cases op with
  | add u =>
    show visitedAt (add_url st u) h
    unfold add_url
    dsimp only
    split
    · exact ⟨w, hw⟩
    · rename_i hs
      have hne : get_urlhash (normalize u) ≠ h := by
        intro e
        rw [e, hw] at hs
        simp at hs
      exact ⟨w, by show dictGet (dictSet _ _ _) h = _; rw [dictGet_dictSet_ne _ _ hne, hw]⟩
  | complete u =>
    show visitedAt (mark_url_complete st u) h
    unfold visitedAt
    rw [mark_complete_url_map]
    by_cases hk : get_urlhash u = h
    · exact ⟨u, by rw [← hk, dictGet_dictSet_self]⟩
    · exact ⟨w, by rw [dictGet_dictSet_ne _ _ hk, hw]⟩
  | invalid u =>
    show ∃ u', dictGet (dictSet st.url_map (get_urlhash u) (u, true)) h = some (u', true)
    by_cases hk : get_urlhash u = h
    · exact ⟨u, by rw [← hk, dictGet_dictSet_self]⟩
    · exact ⟨w, by rw [dictGet_dictSet_ne _ _ hk, hw]⟩
  | replay =>
    show visitedAt (parse_save_file robots st) h
    unfold visitedAt
    rw [parse_save_file_url_map robots inv]
    exact ⟨w, hw⟩

lemma FInv_applyOps (robots : RobotMap) {st : FrontierSt} (inv : FInv st)
    (ops : List FOp) : FInv (applyOps robots st ops) := by
  induction ops generalizing st with
  | nil => exact inv
  | cons op rest ih => exact ih (FInv_applyOp robots inv op)

lemma visited_applyOps (robots : RobotMap) {st : FrontierSt} {h : String}
    (inv : FInv st) (hv : visitedAt st h) (ops : List FOp) :
    visitedAt (applyOps robots st ops) h := by
  induction ops generalizing st with
  | nil => exact hv
  | cons op rest ih =>
    exact ih (FInv_applyOp robots inv op) (visited_applyOp robots inv hv op)

/-! ## Claims C1, C2, C3 -/

/-- C1.  Visited monotonicity: starting from a fresh Frontier, once a
fingerprint's record has `visited = true`, no later sequence of operations
(`add_url`, `mark_url_complete`, `mark_url_invalid`, save-file replay) ever
records it with `visited = false` again; and `add_url` writes a
`(url, False)` record only when the fingerprint is absent — an `add_url`
whose fingerprint is present changes nothing. -/
theorem claim_C1 :
    (∀ (robots : RobotMap) (ops1 ops2 : List FOp) (h u : String),
      dictGet (applyOps robots frontierInit ops1).url_map h = some (u, true) →
      ∃ u', dictGet (applyOps robots (applyOps robots frontierInit ops1) ops2).url_map h
        = some (u', true)) ∧
    (∀ (st : FrontierSt) (url : String),
      (dictGet st.url_map (get_urlhash (normalize url))).isSome = true →
      add_url st url = st) := by
  constructor
  · intro robots ops1 ops2 h u hvis
    exact visited_applyOps robots (FInv_applyOps robots FInv_init ops1) ⟨u, hvis⟩ ops2
  · intro st url hs
    unfold add_url
    dsimp only
    rw [if_pos hs]

/-- C1 witness: a URL is added then marked complete; its record stays
visited across further operations, and a duplicate `add_url` is a no-op. -/
theorem claim_C1_witness :
    (∃ u', dictGet (applyOps [] (applyOps [] frontierInit
        [.add "https://www.ics.uci.edu/a", .complete "https://www.ics.uci.edu/a"])
        [.add "https://www.ics.uci.edu/a", .replay,
         .invalid "https://www.ics.uci.edu/b"]).url_map
        "https://www.ics.uci.edu/a" = some (u', true)) ∧
    add_url (applyOps [] frontierInit [.add "https://www.ics.uci.edu/a"])
        "https://www.ics.uci.edu/a" =
      applyOps [] frontierInit [.add "https://www.ics.uci.edu/a"] :=
  ⟨claim_C1.1 [] [.add "https://www.ics.uci.edu/a", .complete "https://www.ics.uci.edu/a"]
      [.add "https://www.ics.uci.edu/a", .replay, .invalid "https://www.ics.uci.edu/b"]
      "https://www.ics.uci.edu/a" "https://www.ics.uci.edu/a" (by decide),
   claim_C1.2 (applyOps [] frontierInit [.add "https://www.ics.uci.edu/a"])
      "https://www.ics.uci.edu/a" (by decide)⟩

/-- C2.  Idempotent discovery: two `add_url` calls whose URLs normalise to
the same fingerprint leave the Frontier exactly as after the first call
(mapping, durable store and queue unchanged); from a fresh Frontier the URL
is enqueued exactly once; and fragment-only and trailing-slash-only variants
do normalise to the same fingerprint. -/
theorem claim_C2 :
    (∀ (st : FrontierSt) (u1 u2 : String),
      get_urlhash (normalize u1) = get_urlhash (normalize u2) →
      add_url (add_url st u1) u2 = add_url st u1) ∧
    (∀ u1 u2 : String,
      get_urlhash (normalize u1) = get_urlhash (normalize u2) →
      (add_url (add_url frontierInit u1) u2).queue = [normalize u1]) ∧
    get_urlhash (normalize "https://www.ics.uci.edu/people") =
      get_urlhash (normalize "https://www.ics.uci.edu/people/") ∧
    get_urlhash (normalize "https://www.ics.uci.edu/people") =
      get_urlhash (normalize "https://www.ics.uci.edu/people#top") := by
  have key : ∀ (st : FrontierSt) (u1 u2 : String),
      get_urlhash (normalize u1) = get_urlhash (normalize u2) →
      add_url (add_url st u1) u2 = add_url st u1 := by
    intro st u1 u2 hh
    by_cases h1 : (dictGet st.url_map (get_urlhash (normalize u1))).isSome = true
    · have e1 : add_url st u1 = st := by
        unfold add_url
        dsimp only
        rw [if_pos h1]
      rw [e1]
      have h2 : (dictGet st.url_map (get_urlhash (normalize u2))).isSome = true := by
        rw [← hh]
        exact h1
      unfold add_url
      dsimp only
      rw [if_pos h2]
    · have e1 : add_url st u1 = { st with
          url_map := dictSet st.url_map (get_urlhash (normalize u1))
            (normalize u1, false)
          save := dictSet st.save (get_urlhash (normalize u1)) (normalize u1, false)
          queue := st.queue ++ [normalize u1] } := by
        unfold add_url
        dsimp only
        rw [if_neg h1]
      rw [e1]
      have h2 : (dictGet (dictSet st.url_map (get_urlhash (normalize u1))
          (normalize u1, false)) (get_urlhash (normalize u2))).isSome = true := by
        rw [← hh, dictGet_dictSet_self]
        rfl
      unfold add_url
      dsimp only
      rw [if_pos h2]
  refine ⟨key, ?_, by decide, by decide⟩
  intro u1 u2 hh
  rw [key frontierInit u1 u2 hh]
  have h0 : ¬((dictGet frontierInit.url_map (get_urlhash (normalize u1))).isSome
      = true) := by
    simp [frontierInit, dictGet]
  unfold add_url
  dsimp only
  rw [if_neg h0]
  rfl

/-- C2 witness: concrete fragment and trailing-slash variants of a URL are
merged into a single enqueue. -/
theorem claim_C2_witness :
    add_url (add_url frontierInit "https://www.ics.uci.edu/people/")
        "https://www.ics.uci.edu/people#top" =
      add_url frontierInit "https://www.ics.uci.edu/people/" ∧
    (add_url (add_url frontierInit "https://www.ics.uci.edu/people/")
        "https://www.ics.uci.edu/people#top").queue =
      ["https://www.ics.uci.edu/people"] :=
  ⟨claim_C2.1 frontierInit "https://www.ics.uci.edu/people/"
      "https://www.ics.uci.edu/people#top" (by decide),
   claim_C2.2.1 "https://www.ics.uci.edu/people/"
      "https://www.ics.uci.edu/people#top" (by decide)⟩

/-- C3.  Crash recovery: resuming (`restart = false`) on a non-empty durable
store enqueues exactly the stored URLs whose records are unvisited and pass
`is_valid`, in store order — the seeds play no part; restarting, or resuming
on an absent or empty store, produces exactly the seeded Frontier.  Exactly
one of resume and seeding populates the queue. -/
theorem claim_C3 :
    (∀ (robots : RobotMap) (seeds : List String)
      (sv : List (String × String × Bool)), sv ≠ [] →
      (initFrontier robots seeds false (some sv)).queue =
        (sv.filter (fun e => !e.2.2 && is_valid robots e.2.1)).map (fun e => e.2.1)) ∧
    (∀ (robots : RobotMap) (seeds : List String)
      (disk : Option (List (String × String × Bool))),
      initFrontier robots seeds true disk = seeds.foldl add_url frontierInit) ∧
    (∀ (robots : RobotMap) (seeds : List String),
      initFrontier robots seeds false none = seeds.foldl add_url frontierInit ∧
      initFrontier robots seeds false (some []) = seeds.foldl add_url frontierInit) := by
  refine ⟨?_, fun robots seeds disk => rfl, fun robots seeds => ⟨rfl, rfl⟩⟩
  intro robots seeds sv hne
  show (if ({ frontierInit with save := sv } : FrontierSt).save.isEmpty = true
      then seeds.foldl add_url (parse_save_file robots { frontierInit with save := sv })
      else parse_save_file robots { frontierInit with save := sv }).queue = _
  rw [if_neg (by simpa using hne)]
  rfl

/-- C3 witness: a concrete resume from a three-record store enqueues exactly
its unvisited in-scope URL, and seeding happens exactly when the store is
empty or absent. -/
theorem claim_C3_witness :
    (initFrontier [] ["https://www.ics.uci.edu/"] false
        (some [("h1", ("https://www.ics.uci.edu/a", false)),
               ("h2", ("https://www.ics.uci.edu/b", true)),
               ("h3", ("http://example.com/c", false))])).queue =
      ["https://www.ics.uci.edu/a"] ∧
    initFrontier [] ["https://www.ics.uci.edu/"] true none =
      ["https://www.ics.uci.edu/"].foldl add_url frontierInit ∧
    initFrontier [] ["https://www.ics.uci.edu/"] false none =
      ["https://www.ics.uci.edu/"].foldl add_url frontierInit :=
  ⟨by
    rw [claim_C3.1 [] ["https://www.ics.uci.edu/"]
      [("h1", ("https://www.ics.uci.edu/a", false)),
       ("h2", ("https://www.ics.uci.edu/b", true)),
       ("h3", ("http://example.com/c", false))] (by decide)]
    decide,
   claim_C3.2.1 [] ["https://www.ics.uci.edu/"] none,
   (claim_C3.2.2 [] ["https://www.ics.uci.edu/"]).1⟩

/-! ## Claims C5, C9, C10 -/

/-- C5.  Scope filter on concrete URLs with no robots rules cached:
`http://example.com/x.pdf` is rejected, `https://www.ics.uci.edu/people/`
accepted, and `https://ics.uci.edu.attacker.com/` rejected — the allow-list
is a host-suffix match, not a substring match. -/
theorem claim_C5 :
    is_valid [] "http://example.com/x.pdf" = false ∧
    is_valid [] "https://www.ics.uci.edu/people/" = true ∧
    is_valid [] "https://ics.uci.edu.attacker.com/" = false := by
  decide

/-- C9.  Totality of the scope check: `is_valid` always returns a boolean,
and whenever its `try:` body raises (modelled by `is_validCore` returning
`none`) the result is `false`. -/
theorem claim_C9 :
    ∀ (robots : RobotMap) (s : String),
      (is_valid robots s = true ∨ is_valid robots s = false) ∧
      (is_validCore robots s = none → is_valid robots s = false) := by
  intro robots s
  refine ⟨?_, ?_⟩
  · cases h : is_valid robots s
    · exact Or.inr rfl
    · exact Or.inl rfl
  · intro h
    unfold is_valid
    rw [h]
    rfl

/-- C9 witness: a malformed IPv6 URL makes the parser raise inside
`is_valid`, which is caught and yields `false`. -/
theorem claim_C9_witness :
    is_validCore [] "http://[::1/x" = none ∧ is_valid [] "http://[::1/x" = false :=
  ⟨by decide, (claim_C9 [] "http://[::1/x").2 (by decide)⟩

/-- C10.  Apex-domain edge case: a host that is exactly an allow-listed
domain (no extra label) fails the leading-dot suffix comparison and is
rejected, while a host with a subdomain label passes. -/
theorem claim_C10 :
    is_valid [] "https://ics.uci.edu/" = false ∧
    is_valid [] "https://stat.uci.edu/" = false ∧
    is_valid [] "https://www.ics.uci.edu/" = true := by
  decide

/-! ## Politeness-gate lemmas (claim C4) -/

lemma obey_of_some {world : String → Option RobotsInfo} {st : PoliteSt} {url : String}
    {d : ℚ} (h : dictGet st.crawl_delays ((urlparse url).netloc) = some d) :
    obey_crawl_delay world st url = ⟨st, some d, false⟩ := by
  simp [obey_crawl_delay, h]

lemma obey_of_other {world : String → Option RobotsInfo} {st : PoliteSt} {url : String}
    (h : dictGet st.crawl_delays ((urlparse url).netloc) = none)
    (hc : ¬(is_root_url url = true ∧
      (dictGet st.robot_parsers ((urlparse url).netloc)).isNone = true)) :
    obey_crawl_delay world st url = ⟨st, none, false⟩ := by
  simp only [obey_crawl_delay, h]
  rw [if_neg (by simpa using hc)]

lemma obey_fetch {world : String → Option RobotsInfo} {st : PoliteSt} {url : String}
    (h : dictGet st.crawl_delays ((urlparse url).netloc) = none)
    (hroot : is_root_url url = true)
    (hrp : dictGet st.robot_parsers ((urlparse url).netloc) = none) :
    (obey_crawl_delay world st url).fetchedRobots = true ∧
    (obey_crawl_delay world st url).slept =
      some (delayFor world ((urlparse url).netloc)) ∧
    (obey_crawl_delay world st url).state.crawl_delays =
      dictSet st.crawl_delays ((urlparse url).netloc)
        (delayFor world ((urlparse url).netloc)) := by
  cases hw : world ((urlparse url).netloc) with
  | none => simp [obey_crawl_delay, h, delayFor, hw, hroot, hrp]
  | some info =>
    cases hcd : info.crawlDelay with
    | none => simp [obey_crawl_delay, h, delayFor, hw, hcd, hroot, hrp]
    | some d =>
      by_cases hd0 : d = 0
      · simp [obey_crawl_delay, h, delayFor, hw, hcd, hd0, hroot, hrp]
      · simp [obey_crawl_delay, h, delayFor, hw, hcd, hd0, hroot, hrp]

lemma obey_preserves_some {world : String → Option RobotsInfo} {st : PoliteSt}
    {h : String} (url : String)
    (hs : (dictGet st.crawl_delays h).isSome = true) :
    (dictGet (obey_crawl_delay world st url).state.crawl_delays h).isSome = true := by
  cases hn : dictGet st.crawl_delays ((urlparse url).netloc) with
  | some d => rw [obey_of_some hn]; exact hs
  | none =>
    by_cases hc : is_root_url url = true ∧
        (dictGet st.robot_parsers ((urlparse url).netloc)).isNone = true
    · rw [(obey_fetch hn hc.1 (Option.isNone_iff_eq_none.mp hc.2)).2.2]
      by_cases he : (urlparse url).netloc = h
      · rw [he, dictGet_dictSet_self]
        rfl
      · rw [dictGet_dictSet_ne _ _ he]
        exact hs
    · rw [obey_of_other hn hc]
      exact hs

lemma obey_fetched_some {world : String → Option RobotsInfo} {st : PoliteSt}
    {url : String}
    (hf : (obey_crawl_delay world st url).fetchedRobots = true) :
    (dictGet (obey_crawl_delay world st url).state.crawl_delays
      ((urlparse url).netloc)).isSome = true := by
  cases hn : dictGet st.crawl_delays ((urlparse url).netloc) with
  | some d => rw [obey_of_some hn] at hf ⊢; simp at hf
  | none =>
    by_cases hc : is_root_url url = true ∧
        (dictGet st.robot_parsers ((urlparse url).netloc)).isNone = true
    · rw [(obey_fetch hn hc.1 (Option.isNone_iff_eq_none.mp hc.2)).2.2,
        dictGet_dictSet_self]
      rfl
    · rw [obey_of_other hn hc] at hf
      simp at hf

lemma runObeys_no_fetch (world : String → Option RobotsInfo) (urls : List String)
    {st : PoliteSt} {h : String}
    (hs : (dictGet st.crawl_delays h).isSome = true) :
    ((runObeys world st urls).2).count h = 0 := by
  induction urls generalizing st with
  | nil => rfl
  | cons url rest ih =>
    show ((if (obey_crawl_delay world st url).fetchedRobots
        then [(urlparse url).netloc] else []) ++
      (runObeys world (obey_crawl_delay world st url).state rest).2).count h = 0
    rw [List.count_append]
    have hrest : ((runObeys world (obey_crawl_delay world st url).state rest).2).count h
        = 0 := ih (obey_preserves_some url hs)
    cases hf : (obey_crawl_delay world st url).fetchedRobots with
    | false => simp [hrest]
    | true =>
      have hne : (urlparse url).netloc ≠ h := by
        intro he
        cases hn : dictGet st.crawl_delays ((urlparse url).netloc) with
        | some d => rw [obey_of_some hn] at hf; simp at hf
        | none => rw [← he, hn] at hs; simp at hs
      have h0 : List.count h [(urlparse url).netloc] = 0 := by
        simp only [List.count_eq_zero, List.mem_singleton]
        exact fun e => hne e.symm
      simp [h0, hrest]

lemma runObeys_count_le_one (world : String → Option RobotsInfo) (urls : List String)
    (st : PoliteSt) (h : String) :
    ((runObeys world st urls).2).count h ≤ 1 := by
  induction urls generalizing st with
  | nil => exact Nat.zero_le 1
  | cons url rest ih =>
    show ((if (obey_crawl_delay world st url).fetchedRobots
        then [(urlparse url).netloc] else []) ++
      (runObeys world (obey_crawl_delay world st url).state rest).2).count h ≤ 1
    rw [List.count_append]
    cases hf : (obey_crawl_delay world st url).fetchedRobots with
    | false => simpa using ih (obey_crawl_delay world st url).state
    | true =>
      by_cases he : (urlparse url).netloc = h
      · have hrest := runObeys_no_fetch world rest (he ▸ obey_fetched_some hf)
        rw [hrest, he]
        simp
      · have h0 : List.count h [(urlparse url).netloc] = 0 := by
          simp only [List.count_eq_zero, List.mem_singleton]
          exact fun e => he e.symm
        rw [if_pos rfl, h0]
        simpa using ih (obey_crawl_delay world st url).state

/-- C4 counterexample: `https://www.ics.uci.edu/people/` passes `is_valid`
(so it is handed to the scraper), yet `obey_crawl_delay` on a fresh
politeness state performs no sleep and no robots fetch for it: the claimed
"delay before processing every fetched page of the host" fails on the first
non-root URL of a host. -/
theorem claim_C4_counterexample :
    is_valid [] "https://www.ics.uci.edu/people/" = true ∧
    (obey_crawl_delay (fun _ => some ⟨fun _ => true, none, []⟩) politeInit
      "https://www.ics.uci.edu/people/").slept = none ∧
    (obey_crawl_delay (fun _ => some ⟨fun _ => true, none, []⟩) politeInit
      "https://www.ics.uci.edu/people/").fetchedRobots = false := by
  refine ⟨by decide, ?_, ?_⟩ <;> rfl

/-- C4 (amended).  Robots rules are fetched at most once per host across any
call sequence; the crawl delay (declared, or the 1.0-second default) is
slept whenever the host already has a recorded delay; a root URL of a host
with no recorded state triggers the robots fetch and sleeps the declared-or-
default delay; in every other case `obey_crawl_delay` does nothing — in
particular the first non-root URL of an unseen host is processed without
any delay. -/
theorem claim_C4 :
    (∀ (world : String → Option RobotsInfo) (urls : List String) (h : String),
      ((runObeys world politeInit urls).2).count h ≤ 1) ∧
    (∀ (world : String → Option RobotsInfo) (st : PoliteSt) (url : String) (d : ℚ),
      dictGet st.crawl_delays ((urlparse url).netloc) = some d →
      (obey_crawl_delay world st url).slept = some d ∧
      (obey_crawl_delay world st url).fetchedRobots = false) ∧
    (∀ (world : String → Option RobotsInfo) (st : PoliteSt) (url : String),
      dictGet st.crawl_delays ((urlparse url).netloc) = none →
      is_root_url url = true →
      dictGet st.robot_parsers ((urlparse url).netloc) = none →
      (obey_crawl_delay world st url).fetchedRobots = true ∧
      (obey_crawl_delay world st url).slept =
        some (delayFor world ((urlparse url).netloc))) ∧
    (∀ (world : String → Option RobotsInfo) (st : PoliteSt) (url : String),
      dictGet st.crawl_delays ((urlparse url).netloc) = none →
      ¬(is_root_url url = true ∧
        (dictGet st.robot_parsers ((urlparse url).netloc)).isNone = true) →
      obey_crawl_delay world st url = ⟨st, none, false⟩) := by
  refine ⟨fun world urls h => runObeys_count_le_one world urls politeInit h,
    ?_, ?_, ?_⟩
  · intro world st url d hd
    rw [obey_of_some hd]
    exact ⟨rfl, rfl⟩
  · intro world st url h1 h2 h3
    exact ⟨(obey_fetch h1 h2 h3).1, (obey_fetch h1 h2 h3).2.1⟩
  · intro world st url h1 h2
    exact obey_of_other h1 h2

/-- C4 witness: the amended statement at concrete inputs — a sequence of
calls fetches robots.txt for the host once; a recorded 2-second delay is
slept; a fresh root URL fetches and sleeps the default 1.0 second; a fresh
non-root URL does nothing. -/
theorem claim_C4_witness :
    ((runObeys (fun _ => none) politeInit
      ["https://www.ics.uci.edu/", "https://www.ics.uci.edu/",
       "https://www.ics.uci.edu/people/"]).2).count "www.ics.uci.edu" ≤ 1 ∧
    (obey_crawl_delay (fun _ => none) ⟨[], [("www.ics.uci.edu", 2)]⟩
      "https://www.ics.uci.edu/people/").slept = some 2 ∧
    ((obey_crawl_delay (fun _ => none) politeInit
        "https://www.ics.uci.edu/").fetchedRobots = true ∧
      (obey_crawl_delay (fun _ => none) politeInit
        "https://www.ics.uci.edu/").slept =
          some (delayFor (fun _ => none) "www.ics.uci.edu")) ∧
    obey_crawl_delay (fun _ => none) politeInit "https://www.ics.uci.edu/people/" =
      ⟨politeInit, none, false⟩ :=
  ⟨claim_C4.1 (fun _ => none)
      ["https://www.ics.uci.edu/", "https://www.ics.uci.edu/",
       "https://www.ics.uci.edu/people/"] "www.ics.uci.edu",
   (claim_C4.2.1 (fun _ => none) ⟨[], [("www.ics.uci.edu", 2)]⟩
      "https://www.ics.uci.edu/people/" 2 (by decide)).1,
   by
     have := claim_C4.2.2.1 (fun _ => none) politeInit "https://www.ics.uci.edu/"
       rfl (by decide) rfl
     exact ⟨this.1, by rw [this.2]; rfl⟩,
   claim_C4.2.2.2 (fun _ => none) politeInit "https://www.ics.uci.edu/people/"
     rfl (by decide)⟩

/-! ## Counter lemmas and the cosine-similarity bounds (claim C7) -/

lemma cnt_cons_self (c : List (String × Nat)) (k : String) (v : Nat) :
    cnt ((k, v) :: c) k = v := by
  simp [cnt, dictGet]

lemma cnt_cons_ne (c : List (String × Nat)) {k x : String} (v : Nat) (h : k ≠ x) :
    cnt ((k, v) :: c) x = cnt c x := by
  simp [cnt, dictGet, h]

lemma cnt_of_not_mem {c : List (String × Nat)} {x : String} (h : x ∉ keys c) :
    cnt c x = 0 := by
  simp [cnt, dictGet_eq_none.mpr h]

lemma values_eq_keys_map {c : List (String × Nat)} (nd : (keys c).Nodup) :
    c.map (fun p => p.2 * p.2) = (keys c).map (fun x => cnt c x * cnt c x) := by
  induction c with
  | nil => rfl
  | cons p rest ih =>
    obtain ⟨k, v⟩ := p
    have hk : k ∉ keys rest := (List.nodup_cons.mp nd).1
    have nd' := (List.nodup_cons.mp nd).2
    show (v * v) :: rest.map (fun p => p.2 * p.2) =
      (cnt ((k, v) :: rest) k * cnt ((k, v) :: rest) k) ::
        (keys rest).map (fun x => cnt ((k, v) :: rest) x * cnt ((k, v) :: rest) x)
    rw [cnt_cons_self, ih nd']
    congr 1
    refine List.map_congr_left (fun x hx => ?_)
    rw [cnt_cons_ne rest v (fun e => hk (by rw [e]; exact hx))]

lemma interKeys_self (c : List (String × Nat)) : interKeys c c = keys c := by
  rw [interKeys, List.filter_eq_self]
  exact fun a ha => decide_eq_true ha

lemma dotCnt_self {c : List (String × Nat)} (nd : (keys c).Nodup) :
    dotCnt c c = normSq c := by
  rw [dotCnt, interKeys_self, normSq, values_eq_keys_map nd]

lemma sum_filter_map_eq {l : List String} {p : String → Bool} {g : String → Nat}
    (h : ∀ x ∈ l, p x = false → g x = 0) :
    ((l.filter p).map g).sum = (l.map g).sum := by
  induction l with
  | nil => rfl
  | cons a l ih =>
    have ih' := ih (fun x hx => h x (List.mem_cons_of_mem a hx))
    cases hp : p a with
    | true => simp [List.filter_cons, hp, ih']
    | false => simp [List.filter_cons, hp, ih', h a (List.mem_cons_self a l) hp]

lemma dot_eq_keys1_sum (c1 c2 : List (String × Nat)) :
    dotCnt c1 c2 = ((keys c1).map (fun x => cnt c1 x * cnt c2 x)).sum := by
  rw [dotCnt, interKeys]
  refine sum_filter_map_eq (fun x hx hp => ?_)
  have hxm : x ∉ keys c2 := fun hm => by simp [decide_eq_true hm] at hp
  rw [cnt_of_not_mem hxm, Nat.mul_zero]

lemma normSq_eq_finset {c : List (String × Nat)} (nd : (keys c).Nodup) :
    normSq c = ∑ x ∈ (keys c).toFinset, cnt c x * cnt c x := by
  rw [normSq, values_eq_keys_map nd, List.sum_toFinset _ nd]

lemma dot_eq_finset {c1 : List (String × Nat)} (c2 : List (String × Nat))
    (nd1 : (keys c1).Nodup) :
    dotCnt c1 c2 = ∑ x ∈ (keys c1).toFinset, cnt c1 x * cnt c2 x := by
  rw [dot_eq_keys1_sum, List.sum_toFinset _ nd1]

lemma normSq_cast_union {c : List (String × Nat)} (U : Finset String)
    (nd : (keys c).Nodup) (hsub : (keys c).toFinset ⊆ U) :
    (normSq c : ℝ) = ∑ x ∈ U, (cnt c x : ℝ) ^ 2 := by
  rw [normSq_eq_finset nd, Nat.cast_sum]
  rw [Finset.sum_congr rfl
    (fun x _ => show ((cnt c x * cnt c x : ℕ) : ℝ) = (cnt c x : ℝ) ^ 2 by
      push_cast; ring)]
  refine Finset.sum_subset hsub (fun x _ hnx => ?_)
  rw [cnt_of_not_mem (fun hm => hnx (List.mem_toFinset.mpr hm))]
  simp

lemma dot_cast_union {c1 c2 : List (String × Nat)} (U : Finset String)
    (nd1 : (keys c1).Nodup) (hsub : (keys c1).toFinset ⊆ U) :
    (dotCnt c1 c2 : ℝ) = ∑ x ∈ U, (cnt c1 x : ℝ) * (cnt c2 x : ℝ) := by
  rw [dot_eq_finset c2 nd1, Nat.cast_sum]
  rw [Finset.sum_congr rfl
    (fun x _ => show ((cnt c1 x * cnt c2 x : ℕ) : ℝ) = (cnt c1 x : ℝ) * cnt c2 x by
      push_cast; ring)]
  refine Finset.sum_subset hsub (fun x _ hnx => ?_)
  rw [cnt_of_not_mem (fun hm => hnx (List.mem_toFinset.mpr hm))]
  simp

/-- Cauchy–Schwarz for counters: the dot product over the common keys is at
most the product of the magnitudes. -/
lemma dot_le_sqrt_mul_sqrt {c1 c2 : List (String × Nat)}
    (nd1 : (keys c1).Nodup) (nd2 : (keys c2).Nodup) :
    (dotCnt c1 c2 : ℝ) ≤ Real.sqrt (normSq c1) * Real.sqrt (normSq c2) := by
  classical
  set U : Finset String := (keys c1).toFinset ∪ (keys c2).toFinset with hU
  rw [dot_cast_union U nd1 Finset.subset_union_left,
    normSq_cast_union U nd1 Finset.subset_union_left,
    normSq_cast_union U nd2 Finset.subset_union_right]
  exact Real.sum_mul_le_sqrt_mul_sqrt U _ _

lemma sqrt_normSq_ne_zero {c : List (String × Nat)} (h : normSq c ≠ 0) :
    Real.sqrt (normSq c) ≠ 0 := by
  rw [Ne, Real.sqrt_eq_zero']
  push_neg
  exact_mod_cast Nat.pos_of_ne_zero h

/-- C7.  Cosine-similarity bounds: for counters (non-negative counts,
unduplicated keys) the value always lies in `[0, 1]`; a vector of non-zero
magnitude has similarity `1` with itself; and whenever either argument has
zero magnitude the result is `0`. -/
theorem claim_C7 :
    (∀ c1 c2 : List (String × Nat), (keys c1).Nodup → (keys c2).Nodup →
      0 ≤ cosine_sim c1 c2 ∧ cosine_sim c1 c2 ≤ 1) ∧
    (∀ c : List (String × Nat), (keys c).Nodup → normSq c ≠ 0 →
      cosine_sim c c = 1) ∧
    (∀ c1 c2 : List (String × Nat), normSq c1 = 0 ∨ normSq c2 = 0 →
      cosine_sim c1 c2 = 0) := by
  refine ⟨?_, ?_, ?_⟩
  · intro c1 c2 nd1 nd2
    by_cases hz : Real.sqrt (normSq c1) = 0 ∨ Real.sqrt (normSq c2) = 0
    · simp only [cosine_sim]
      rw [if_pos hz]
      exact ⟨le_refl 0, zero_le_one⟩
    · simp only [cosine_sim]
      rw [if_neg hz]
      push_neg at hz
      have h1 : 0 < Real.sqrt (normSq c1) :=
        lt_of_le_of_ne (Real.sqrt_nonneg _) (Ne.symm hz.1)
      have h2 : 0 < Real.sqrt (normSq c2) :=
        lt_of_le_of_ne (Real.sqrt_nonneg _) (Ne.symm hz.2)
      constructor
      · exact div_nonneg (Nat.cast_nonneg _) (le_of_lt (mul_pos h1 h2))
      · rw [div_le_one (mul_pos h1 h2)]
        exact dot_le_sqrt_mul_sqrt nd1 nd2
  · intro c nd hnz
    simp only [cosine_sim]
    have hz : ¬(Real.sqrt (normSq c) = 0 ∨ Real.sqrt (normSq c) = 0) := by
      push_neg
      exact ⟨sqrt_normSq_ne_zero hnz, sqrt_normSq_ne_zero hnz⟩
    rw [if_neg hz]
    rw [dotCnt_self nd, Real.mul_self_sqrt (Nat.cast_nonneg _)]
    exact div_self (by exact_mod_cast hnz)
  · intro c1 c2 h
    simp only [cosine_sim]
    cases h with
    | inl h => rw [if_pos (Or.inl (by rw [h]; simp))]
    | inr h => rw [if_pos (Or.inr (by rw [h]; simp))]

/-- The decidable near-duplicate test used in `scraperMain` computes exactly
the source's floating-point comparison `cosine_sim c1 c2 >= 0.9` read over
the reals. -/
lemma nearDupB_iff (c1 c2 : List (String × Nat)) :
    nearDupB c1 c2 = true ↔ (9 / 10 : ℝ) ≤ cosine_sim c1 c2 := by
  by_cases hA : normSq c1 = 0
  · have hc : cosine_sim c1 c2 = 0 := by
      simp only [cosine_sim]
      rw [if_pos (Or.inl (by rw [hA]; simp))]
    rw [hc]
    simp only [nearDupB, decide_eq_true_eq]
    constructor
    · rintro ⟨h, -⟩
      exact absurd hA h
    · intro h
      norm_num at h
  · by_cases hB : normSq c2 = 0
    · have hc : cosine_sim c1 c2 = 0 := by
        simp only [cosine_sim]
        rw [if_pos (Or.inr (by rw [hB]; simp))]
      rw [hc]
      simp only [nearDupB, decide_eq_true_eq]
      constructor
      · rintro ⟨-, h, -⟩
        exact absurd hB h
      · intro h
        norm_num at h
    · have hA' : (0 : ℝ) < (normSq c1 : ℝ) := by
        exact_mod_cast Nat.pos_of_ne_zero hA
      have hB' : (0 : ℝ) < (normSq c2 : ℝ) := by
        exact_mod_cast Nat.pos_of_ne_zero hB
      have hSA : 0 < Real.sqrt (normSq c1) := Real.sqrt_pos.mpr hA'
      have hSB : 0 < Real.sqrt (normSq c2) := Real.sqrt_pos.mpr hB'
      have hguard : ¬(Real.sqrt (normSq c1) = 0 ∨ Real.sqrt (normSq c2) = 0) := by
        push_neg
        exact ⟨ne_of_gt hSA, ne_of_gt hSB⟩
      have hD : (0 : ℝ) ≤ (dotCnt c1 c2 : ℝ) := Nat.cast_nonneg _
      have e : (9 / 10 * (Real.sqrt (normSq c1) * Real.sqrt (normSq c2))) ^ 2
          = 81 / 100 * ((normSq c1 : ℝ) * (normSq c2 : ℝ)) := by
        rw [mul_pow, mul_pow, Real.sq_sqrt hA'.le, Real.sq_sqrt hB'.le]
        norm_num
      simp only [cosine_sim]
      rw [if_neg hguard, nearDupB, decide_eq_true_eq]
      constructor
      · rintro ⟨-, -, hle⟩
        have hle' : (81 : ℝ) * ((normSq c1 : ℝ) * (normSq c2 : ℝ)) ≤
            100 * ((dotCnt c1 c2 : ℝ) * (dotCnt c1 c2 : ℝ)) := by
          exact_mod_cast hle
        rw [le_div_iff₀ (mul_pos hSA hSB)]
        have hx : (0 : ℝ) ≤
            9 / 10 * (Real.sqrt (normSq c1) * Real.sqrt (normSq c2)) := by positivity
        have hsq : (9 / 10 * (Real.sqrt (normSq c1) * Real.sqrt (normSq c2))) ^ 2
            ≤ (dotCnt c1 c2 : ℝ) ^ 2 := by
          rw [e]
          nlinarith [hle']
        calc 9 / 10 * (Real.sqrt (normSq c1) * Real.sqrt (normSq c2))
            = Real.sqrt ((9 / 10 *
              (Real.sqrt (normSq c1) * Real.sqrt (normSq c2))) ^ 2) :=
              (Real.sqrt_sq hx).symm
          _ ≤ Real.sqrt ((dotCnt c1 c2 : ℝ) ^ 2) := Real.sqrt_le_sqrt hsq
          _ = (dotCnt c1 c2 : ℝ) := Real.sqrt_sq hD
      · intro hge
        refine ⟨hA, hB, ?_⟩
        rw [le_div_iff₀ (mul_pos hSA hSB)] at hge
        have hsq := pow_le_pow_left₀ (by positivity) hge 2
        rw [e] at hsq
        have hfin : (81 : ℝ) * ((normSq c1 : ℝ) * (normSq c2 : ℝ)) ≤
            100 * ((dotCnt c1 c2 : ℝ) * (dotCnt c1 c2 : ℝ)) := by
          nlinarith [hsq]
        exact_mod_cast hfin

/-- C7 witness: concrete counters — bounds, self-similarity 1, and the
zero-magnitude case. -/
theorem claim_C7_witness :
    (0 ≤ cosine_sim [("a", 1)] [("a", 1), ("b", 2)] ∧
      cosine_sim [("a", 1)] [("a", 1), ("b", 2)] ≤ 1) ∧
    cosine_sim [("a", 1), ("b", 2)] [("a", 1), ("b", 2)] = 1 ∧
    cosine_sim [] [("a", 1)] = 0 :=
  ⟨claim_C7.1 [("a", 1)] [("a", 1), ("b", 2)] (by decide) (by decide),
   claim_C7.2.1 [("a", 1), ("b", 2)] (by decide) (by decide),
   claim_C7.2.2 [] [("a", 1)] (Or.inl (by decide))⟩

/-! ## The scraper pipeline: duplicate suppression (claim C6) -/

/-- Every execution of the post-guard pipeline leaves the content's hash in
the seen-set: it is either already there (exact-duplicate exit) or added
right after the check, and no later stage removes it. -/
lemma scraperMain_hash_mem (parse : List Nat → Doc)
    (fetchLocs : String → Option (List String))
    (world : String → Option RobotsInfo) (url : String) (resp : Resp)
    (st : ScrapeState) :
    sha256 resp.content ∈
      (scraperMain parse fetchLocs world url resp st).2.2.visited_hashes := by
  unfold scraperMain
  dsimp only
  split
  · rename_i h
    exact h
  · split
    · simp
    · split
      · simp
      · split
        · simp
        · simp

/-- When both guards pass (status 200, in-scope URL, size cap), `scraper`
runs the main pipeline. -/
lemma scraper_eq_main {parse : List Nat → Doc}
    {fetchLocs : String → Option (List String)}
    {world : String → Option RobotsInfo} {url0 : String} {resp : Resp}
    {st : ScrapeState}
    (h3 : resp.status = 200)
    (h1 : is_valid st.robot_parsers (urldefrag url0) = true)
    (h2 : sizeTooBig resp = false) :
    scraper parse fetchLocs world url0 resp st =
      scraperMain parse fetchLocs world (urldefrag url0) resp st := by
  unfold scraper
  dsimp only
  rw [if_neg (show ¬(300 ≤ resp.status ∧ resp.status < 400) by rw [h3]; omega)]
  rw [if_neg (show ¬(is_valid st.robot_parsers (urldefrag url0) = false ∨
    resp.status ≠ 200) by rw [h1, h3]; simp)]
  rw [if_neg (show ¬(sizeTooBig resp = true) by rw [h2]; simp)]

/-- An already-seen content hash short-circuits the pipeline right after the
politeness step: outcome `exactDup`, no links, only the politeness fields
touched. -/
lemma scraperMain_exactDup {parse : List Nat → Doc}
    {fetchLocs : String → Option (List String)}
    {world : String → Option RobotsInfo} {url : String} {resp : Resp}
    {st : ScrapeState}
    (hmem : sha256 resp.content ∈ st.visited_hashes) :
    scraperMain parse fetchLocs world url resp st =
      (Outcome.exactDup, [],
        { st with
          robot_parsers := (obey_crawl_delay world
            ⟨st.robot_parsers, st.crawl_delays⟩ url).state.robot_parsers
          crawl_delays := (obey_crawl_delay world
            ⟨st.robot_parsers, st.crawl_delays⟩ url).state.crawl_delays }) := by
  unfold scraperMain
  dsimp only
  rw [if_pos hmem]

/-- C6.  Duplicate suppression: when two scraper calls both reach the
exact-duplicate check (status 200, in-scope URL, within the size cap) with
byte-identical content, the first records the content hash, and the second
exits as an exact duplicate with an empty link list, leaving the seen-set,
the near-duplicate corpus and all statistics untouched. -/
theorem claim_C6 :
    ∀ (parse : List Nat → Doc) (fetchLocs : String → Option (List String))
      (world : String → Option RobotsInfo) (url1 url2 : String)
      (resp1 resp2 : Resp) (st st1 : ScrapeState),
      resp1.status = 200 →
      is_valid st.robot_parsers (urldefrag url1) = true →
      sizeTooBig resp1 = false →
      st1 = (scraper parse fetchLocs world url1 resp1 st).2.2 →
      resp2.content = resp1.content →
      resp2.status = 200 →
      is_valid st1.robot_parsers (urldefrag url2) = true →
      sizeTooBig resp2 = false →
      sha256 resp1.content ∈ st1.visited_hashes ∧
      (scraper parse fetchLocs world url2 resp2 st1).1 = Outcome.exactDup ∧
      (scraper parse fetchLocs world url2 resp2 st1).2.1 = [] ∧
      (scraper parse fetchLocs world url2 resp2 st1).2.2.visited_hashes =
        st1.visited_hashes ∧
      (scraper parse fetchLocs world url2 resp2 st1).2.2.visited_texts =
        st1.visited_texts ∧
      (scraper parse fetchLocs world url2 resp2 st1).2.2.all_words =
        st1.all_words ∧
      (scraper parse fetchLocs world url2 resp2 st1).2.2.ICS_subdomains =
        st1.ICS_subdomains ∧
      (scraper parse fetchLocs world url2 resp2 st1).2.2.largest =
        st1.largest := by
  intro parse fetchLocs world url1 url2 resp1 resp2 st st1
  intro h1 h2 h3 hst1 hc h5 h6 h7
  subst hst1
  have hmem : sha256 resp1.content ∈
      (scraper parse fetchLocs world url1 resp1 st).2.2.visited_hashes := by
    rw [scraper_eq_main h1 h2 h3]
    exact scraperMain_hash_mem parse fetchLocs world (urldefrag url1) resp1 st
  have hmem2 : sha256 resp2.content ∈
      (scraper parse fetchLocs world url1 resp1 st).2.2.visited_hashes := by
    rw [hc]
    exact hmem
  rw [scraper_eq_main h5 h6 h7, scraperMain_exactDup hmem2]
  exact ⟨hmem, rfl, rfl, rfl, rfl, rfl, rfl, rfl⟩

/-- C6 witness: the same one-byte page handed to the scraper twice — the
second call is rejected as an exact duplicate. -/
theorem claim_C6_witness :
    (scraper (fun _ => ⟨none, []⟩) (fun _ => none) (fun _ => none)
      "https://www.ics.uci.edu/p" ⟨200, none, [0]⟩
      ((scraper (fun _ => ⟨none, []⟩) (fun _ => none) (fun _ => none)
        "https://www.ics.uci.edu/p" ⟨200, none, [0]⟩
        ⟨[], [], [], [], ("", 0), [], []⟩).2.2)).1 = Outcome.exactDup :=
  (claim_C6 (fun _ => ⟨none, []⟩) (fun _ => none) (fun _ => none)
    "https://www.ics.uci.edu/p" "https://www.ics.uci.edu/p"
    ⟨200, none, [0]⟩ ⟨200, none, [0]⟩ ⟨[], [], [], [], ("", 0), [], []⟩ _
    rfl (by decide) rfl rfl rfl rfl (by decide) rfl).2.1

/-! ## Link extraction (claim C8) -/

/-- C8.  Link extraction at a concrete document: the malformed href
`http://[::1` (whose join raises `ValueError`) is skipped without aborting
and `mailto:` is dropped, as the claim says — but the anchor
`httpevil://x/y`, an absolute URL whose scheme is neither `http` nor
`https`, is returned, because the source filters with
`startswith('http')` (its own comment says "only http or https"). -/
theorem claim_C8 :
    extract_links ⟨none, ["httpevil://x/y", "http://[::1", "/about", "mailto:a@b"]⟩
        "https://www.ics.uci.edu/" =
      ["httpevil://x/y", "https://www.ics.uci.edu/about"] ∧
    (urlparse "httpevil://x/y").scheme ≠ "http" ∧
    (urlparse "httpevil://x/y").scheme ≠ "https" := by
  decide

end Crawler
